import Mathlib

/-!
Verification of the streamingfast/substreams-sink library against its
natural-language specification.  The Go sources are shallowly embedded:
structures mirror the protobuf messages and the `blockDataBuffer` state, and
each Go method becomes a pure Lean function returning its results together
with the post-state of its receiver.
-/

namespace SubstreamsSink

/-- `pbsubstreams.Clock`: block height (`Number`) and id.  The timestamp and
payload fields play no role in the buffer logic and are omitted. -/
structure Clock where
  number : Nat
  id : String
deriving DecidableEq, Repr

/-- `pbsubstreamsrpc.BlockScopedData`, restricted to the fields the buffer
reads: the clock and the declared final block height. -/
structure BlockScopedData where
  clock : Clock
  finalBlockHeight : Nat
deriving DecidableEq, Repr

/-- `bstream.BlockRef` (external library): an id plus a block number. -/
structure BlockRef where
  id : String
  num : Nat
deriving DecidableEq, Repr

/-- Rendering of a `bstream.BlockRef` by `%s` formatting: `#num (id)`. -/
def BlockRef.render (r : BlockRef) : String :=
  "#" ++ toString r.num ++ " (" ++ r.id ++ ")"

/-- `pbsubstreams.BlockRef` as carried by a `BlockUndoSignal`. -/
structure PbBlockRef where
  id : String
  number : Nat
deriving DecidableEq, Repr

/-- `pbsubstreamsrpc.BlockUndoSignal` (its cursor field is not read by the
buffer). -/
structure BlockUndoSignal where
  lastValidBlock : PbBlockRef
deriving DecidableEq, Repr

/-- `bstream.EqualsBlockRefs` (external library): equality of block number
and id; both arguments are non-nil wherever the buffer calls it. -/
def EqualsBlockRefs (l r : BlockRef) : Bool :=
  l.num == r.num && l.id == r.id

/-- `clockToBlockRef` from buffer.go. -/
def clockToBlockRef (clock : Clock) : BlockRef := ⟨clock.id, clock.number⟩

/-- `blockToRef` from buffer.go. -/
def blockToRef (d : BlockScopedData) : BlockRef := clockToBlockRef d.clock

/-- `asBlockRef` from buffer.go. -/
def asBlockRef (r : PbBlockRef) : BlockRef := ⟨r.id, r.number⟩

/-- State of `blockDataBuffer` (buffer.go).  In Go, `data` is a fully
allocated array of length `capacity` whose live region is
`data[0:dataEmptyAt]`; entries at or past `dataEmptyAt` are never read.  We
keep the live region as the list `blocks` (so `dataEmptyAt = blocks.length`)
and the backing-array length as `capacity`. -/
structure BlockDataBuffer where
  capacity : Nat
  blocks : List BlockScopedData
  lastEmittedBlock : Option BlockRef
deriving DecidableEq, Repr

/-- `newBlockDataBuffer` from buffer.go. -/
def newBlockDataBuffer (size : Nat) : BlockDataBuffer := ⟨size, [], none⟩

/-- Loop of `findOldestFinalBlockIndex` (buffer.go): scan the live region
forward, breaking at the first block whose height exceeds `finalHeight`,
remembering the index of the last block visited; the accumulator starts at
`-1`.  `i` is the index of the head of the remaining list. -/
def findOldestFinalBlockIndexGo (finalHeight : Nat) :
    List BlockScopedData → Nat → Int → Int
  | [], _, oldestFinalBlockAt => oldestFinalBlockAt
  | blk :: rest, i, oldestFinalBlockAt =>
    if finalHeight < blk.clock.number then oldestFinalBlockAt
    else findOldestFinalBlockIndexGo finalHeight rest (i + 1) (Int.ofNat i)

/-- `findOldestFinalBlockIndex` from buffer.go. -/
def findOldestFinalBlockIndex (b : BlockDataBuffer) (finalHeight : Nat) : Int :=
  findOldestFinalBlockIndexGo finalHeight b.blocks 0 (-1)

/-- Loop of `findNewestValidBlockIndex` (buffer.go): scan the live region
backwards (the argument list is the reversed live region), breaking at the
first block whose height is at most `lastValidBlockHeight`.  The head of the
remaining list sits at index `i - 1` of the live region. -/
def findNewestValidBlockIndexGo (lastValidBlockHeight : Nat) :
    List BlockScopedData → Nat → Int
  | [], _ => -1
  | blk :: rest, i =>
    if blk.clock.number ≤ lastValidBlockHeight then Int.ofNat i - 1
    else findNewestValidBlockIndexGo lastValidBlockHeight rest (i - 1)

/-- `findNewestValidBlockIndex` from buffer.go. -/
def findNewestValidBlockIndex (b : BlockDataBuffer) (lastValidBlockHeight : Nat) : Int :=
  findNewestValidBlockIndexGo lastValidBlockHeight b.blocks.reverse b.blocks.length

/-- Result of `HandleBlockScopedData`: the returned `finalBlocks` slice and
error, together with the post-state of the receiver. -/
structure HandleDataResult where
  finalBlocks : List BlockScopedData
  err : Option String
  post : BlockDataBuffer
deriving DecidableEq, Repr

/-- Result of `HandleBlockUndoSignal`: the returned error together with the
post-state of the receiver. -/
structure HandleUndoResult where
  err : Option String
  post : BlockDataBuffer
deriving DecidableEq, Repr

/-- The ordering-violation error text of buffer.go line 184. -/
def orderingViolationMessage (received highest : BlockScopedData) : String :=
  "received new block scoped data (Block " ++ (blockToRef received).render ++
    ") whose height is lower or equal than our most recent block (Block " ++
    (blockToRef highest).render ++ ")"

/-- The undo-past-emitted error text of buffer.go line 233. -/
def undoPastEmittedMessage (lastValidBlock lastEmittedBlock : BlockRef) : String :=
  "cannot undo down to last valid Block " ++ lastValidBlock.render ++
    " because we already sent you Block " ++ lastEmittedBlock.render ++
    " which is after last valid block"

/-- Lines 213-223 of buffer.go: append the received block to the emission
list when it is itself final, otherwise store it at `data[dataEmptyAt]` and
advance the fill pointer. -/
def finishHandleBlockScopedData (b : BlockDataBuffer)
    (finalBlocks : List BlockScopedData) (blockData : BlockScopedData) :
    HandleDataResult :=
  if blockData.clock.number ≤ blockData.finalBlockHeight then
    ⟨finalBlocks ++ [blockData], none, b⟩
  else
    ⟨finalBlocks, none, { b with blocks := b.blocks ++ [blockData] }⟩

/-- Lines 188-223 of buffer.go, after the ordering check: emit the final
prefix of the live region (pseudo-finalizing the oldest block when at full
capacity), shift the remainder down, record the last emitted block, then
dispatch on whether the received block is itself final. -/
def handleBlockScopedDataCont (b : BlockDataBuffer) (blockData : BlockScopedData) :
    HandleDataResult :=
  let lastFinalBlockAt := findOldestFinalBlockIndex b blockData.finalBlockHeight
  let dataContainsFinalBlocks := lastFinalBlockAt != -1
  let isFullCapacity := b.blocks.length == b.capacity
  if isFullCapacity || dataContainsFinalBlocks then
    let lastFinalBlockAt' := if lastFinalBlockAt == -1 then 0 else lastFinalBlockAt
    let finalBlockCount := (lastFinalBlockAt' + 1).toNat
    let finalBlocks := b.blocks.take finalBlockCount
    let newBlocks := b.blocks.drop finalBlockCount
    match finalBlocks.getLast? with
    | some lastEmitted =>
        finishHandleBlockScopedData
          { b with blocks := newBlocks, lastEmittedBlock := some (blockToRef lastEmitted) }
          finalBlocks blockData
    | none =>
        -- Reachable only for a zero-capacity buffer; there Go dereferences a
        -- nil entry of the backing array and the process panics.
        ⟨[], some "panic: runtime error: invalid memory address or nil pointer dereference", b⟩
  else
    finishHandleBlockScopedData b [] blockData

/-- `HandleBlockScopedData` from buffer.go lines 179-224.  The live region is
non-empty iff `dataEmptyAt != 0`, and `data[dataEmptyAt-1]` is its last
element. -/
def HandleBlockScopedData (b : BlockDataBuffer) (blockData : BlockScopedData) :
    HandleDataResult :=
  match b.blocks.getLast? with
  | some highestBlock =>
    if blockData.clock.number ≤ highestBlock.clock.number then
      ⟨[], some (orderingViolationMessage blockData highestBlock), b⟩
    else handleBlockScopedDataCont b blockData
  | none => handleBlockScopedDataCont b blockData

/-- Lines 237-244 of buffer.go: nothing to do on an emptied buffer, else
truncate the live region at the newest still-valid block. -/
def handleBlockUndoSignalCont (b : BlockDataBuffer) (lastValidBlock : BlockRef) :
    HandleUndoResult :=
  if b.blocks.length == 0 then ⟨none, b⟩
  else
    ⟨none, { b with blocks :=
        b.blocks.take ((findNewestValidBlockIndex b lastValidBlock.num + 1).toNat) }⟩

/-- `HandleBlockUndoSignal` from buffer.go lines 226-245. -/
def HandleBlockUndoSignal (b : BlockDataBuffer) (undoSignal : BlockUndoSignal) :
    HandleUndoResult :=
  let lastValidBlock := asBlockRef undoSignal.lastValidBlock
  match b.lastEmittedBlock with
  | some lastEmitted =>
    if lastValidBlock.num ≤ lastEmitted.num && !(EqualsBlockRefs lastEmitted lastValidBlock) then
      ⟨some (undoPastEmittedMessage lastValidBlock lastEmitted), b⟩
    else handleBlockUndoSignalCont b lastValidBlock
  | none => handleBlockUndoSignalCont b lastValidBlock

/-- Abbreviation used by scenario checks and witnesses: a block `#n (id)`
whose message declares final block height `f`. -/
def blk (n : Nat) (id : String) (f : Nat) : BlockScopedData := ⟨⟨n, id⟩, f⟩

/-- Abbreviation for an undo signal whose last valid block is `#n (id)`. -/
def undoSig (n : Nat) (id : String) : BlockUndoSignal := ⟨⟨id, n⟩⟩


/-! ### Message traces against one buffer

The sinker (sinker.go) feeds each received stream message to the buffer: a
`BlockScopedData` through `HandleBlockScopedData` (collecting the emitted
blocks) and a `BlockUndoSignal` through `HandleBlockUndoSignal`. -/

/-- A stream message relevant to the buffer. -/
inductive SinkMsg where
  | data (d : BlockScopedData)
  | undo (u : BlockUndoSignal)
deriving DecidableEq, Repr

/-- Process a message list against the buffer, concatenating the emitted
blocks of the `HandleBlockScopedData` calls in call order; `none` when some
call returns an error. -/
def runMsgs (b : BlockDataBuffer) : List SinkMsg → Option (List BlockScopedData × BlockDataBuffer)
  | [] => some ([], b)
  | SinkMsg.data d :: rest =>
    let r := HandleBlockScopedData b d
    match r.err with
    | some _ => none
    | none =>
      match runMsgs r.post rest with
      | some (em, b') => some (r.finalBlocks ++ em, b')
      | none => none
  | SinkMsg.undo u :: rest =>
    let r := HandleBlockUndoSignal b u
    match r.err with
    | some _ => none
    | none => runMsgs r.post rest

/-- The protocol contract the client assumes of the server (spec sections 3
and 6): block heights strictly increase across data messages of a stream,
except that after an undo signal with last valid block `L` they restart
strictly above `L`; and an undo signal never reaches below the greatest
`final_block_height` declared so far.  `floor` is the height of the previous
data message or of the last undo's last-valid block; `finalW` the greatest
declared final height. -/
def legalFromB : Option Nat → Nat → List SinkMsg → Bool
  | _, _, [] => true
  | floor, finalW, SinkMsg.data d :: rest =>
    (match floor with
     | none => true
     | some f => decide (f < d.clock.number)) &&
      legalFromB (some d.clock.number) (max finalW d.finalBlockHeight) rest
  | _, finalW, SinkMsg.undo u :: rest =>
    decide (finalW ≤ u.lastValidBlock.number) &&
      legalFromB (some u.lastValidBlock.number) finalW rest

/-! ### Cursor (types.go) -/

/-- Contents of a decoded `bstream.Cursor` (external library): the step, the
block the cursor points at, the head block and the LIB. Only equality of the
whole record matters to the sink. -/
structure BstreamCursor where
  step : Nat
  block : BlockRef
  headBlock : BlockRef
  lib : BlockRef
deriving DecidableEq, Repr

/-- `sink.Cursor` wraps a possibly-nil `*bstream.Cursor`; the nil pointer is
the blank cursor (`blankCursor = (*Cursor)(nil)` in types.go). -/
abbrev Cursor := Option BstreamCursor

/-- `Cursor.IsBlank` from types.go: the receiver is nil or the blank cursor
(both are the nil pointer). -/
def Cursor.IsBlank (c : Cursor) : Bool := c.isNone

/-- `bstream.Cursor.Equals` (external library): deep equality of the decoded
cursor record. -/
def bstreamCursorEquals (actual candidate : BstreamCursor) : Bool :=
  decide (actual = candidate)

/-- `Cursor.IsEqualTo` from types.go lines 152-167, translated branch by
branch.  The last branch is unreachable: the two guards before it exclude
every combination of blank and non-blank receivers from reaching it (in Go
it would dereference one of the two pointers). -/
def Cursor.IsEqualTo (c other : Cursor) : Bool :=
  if Cursor.IsBlank c && Cursor.IsBlank other then true
  else if !(Cursor.IsBlank c) || !(Cursor.IsBlank other) then false
  else
    match c, other with
    | some actual, some candidate => bstreamCursorEquals actual candidate
    | _, _ => false

/-! ### Sinker run loop (sinker.go) -/

/-- Presence of the two user handlers passed to `Sinker.Run`. -/
structure SinkerHandlersPresent where
  hasHandleBlockScopedData : Bool
  hasHandleBlockUndoSignal : Bool
deriving DecidableEq, Repr

/-- Outcome of the two precondition checks at the top of `Sinker.run`
(sinker.go lines 154-160): either a configuration error is returned before
`client.NewSubstreamsClient` is called — so before any stream is opened — or
control proceeds to create the client and enter the request loop. -/
inductive RunPreflight where
  | configError (msg : String)
  | proceedToStream
deriving DecidableEq, Repr

/-- The precondition checks of `Sinker.run` (sinker.go lines 154-160),
including the misspelled error text of the source. -/
def runPreflight (finalBlocksOnly : Bool) (handlers : SinkerHandlersPresent) :
    RunPreflight :=
  if !handlers.hasHandleBlockScopedData then
    RunPreflight.configError "block scope data hanlder not set"
  else if !finalBlocksOnly && !handlers.hasHandleBlockUndoSignal then
    RunPreflight.configError "requesting non-final block and block undo signal handler is not set"
  else RunPreflight.proceedToStream

/-- Classification of one `doRequest` return as tested by `Sinker.run`
(sinker.go lines 200-241): whether at least one message was received, and
which predicates hold of the returned error — `errors.Is(err, io.EOF)`,
`errors.Is(err, context.Canceled)`,
`dgrpc.IsGRPCErrorCode(err, codes.Canceled)` and
`errors.As(err, &retryableError)`.  Every exit path of the `doRequest`
receive loop returns a non-nil error, so each loop iteration is classified
by one such outcome. -/
structure DoRequestOutcome where
  receivedMessage : Bool
  isEOF : Bool
  isCtxCanceled : Bool
  isGRPCCanceled : Bool
  isRetryable : Bool
deriving DecidableEq, Repr

/-- A non-nil error returned by `Sinker.run`: either the error of the last
`doRequest` or `ErrBackOffExpired`. -/
inductive RunError where
  | fromRequest (e : DoRequestOutcome)
  | backOffExpired
deriving DecidableEq, Repr

/-- The request loop of `Sinker.run` (sinker.go lines 189-242) driven by a
trace of `doRequest` outcomes.  `attemptsLeft` models the backoff retry
budget of `backoff.WithMaxRetries` (reset to `maxRetries` whenever a message
was received, line 204); `sleeps` counts the backoff sleeps performed so
far.  Returns `none` when the trace is exhausted with the loop still
running, otherwise `run`'s returned error (`none` for the `io.EOF` success
return) and the total number of backoff sleeps. -/
def runLoopGo (maxRetries : Nat) :
    Nat → Nat → List DoRequestOutcome → Option (Option RunError × Nat)
  | _, _, [] => none
  | attemptsLeft, sleeps, e :: rest =>
    let attemptsLeft' := if e.receivedMessage then maxRetries else attemptsLeft
    if e.isEOF then some (none, sleeps)
    else if e.isCtxCanceled || e.isGRPCCanceled then
      some (some (RunError.fromRequest e), sleeps)
    else if e.isRetryable then
      match attemptsLeft' with
      | 0 => some (some RunError.backOffExpired, sleeps)
      | n + 1 => runLoopGo maxRetries n (sleeps + 1) rest
    else some (some (RunError.fromRequest e), sleeps)

/-- Lines 138-150 of sinker.go, `Sinker.Run`: the error passed to `Shutdown`
is the one returned by `run`, except that it is replaced by nil when the
caller's own context reports `context.Canceled`. -/
def runShutdownErr (ctxErrIsCanceled : Bool) (err : Option RunError) : Option RunError :=
  if ctxErrIsCanceled then none else err

/-! ### Block range parsing (sinker_viper.go) -/

/-- The only field of `pbsubstreams.Module` that `ReadBlockRange` reads. -/
structure PbModule where
  initialBlock : Nat
deriving DecidableEq, Repr

/-- `bstream.Range` (external library) as produced by `bstream.NewOpenRange`
and `bstream.NewRangeExcludingEnd`: a start block and an optional exclusive
end block.  Both constructors simply record their arguments. -/
structure BstreamRange where
  startBlock : Nat
  exclusiveEndBlock : Option Nat
deriving DecidableEq, Repr

deriving instance DecidableEq for Except

/-- `bstream.NewOpenRange` (external library). -/
def NewOpenRange (startBlock : Nat) : BstreamRange := ⟨startBlock, none⟩

/-- `bstream.NewRangeExcludingEnd` (external library). -/
def NewRangeExcludingEnd (startBlock exclusiveEndBlock : Nat) : BstreamRange :=
  ⟨startBlock, some exclusiveEndBlock⟩

/-- Decimal digit accumulation for `parseInt64`. -/
def decDigitsGo : List Char → Nat → Option Nat
  | [], acc => some acc
  | c :: rest, acc =>
    if c.isDigit then decDigitsGo rest (acc * 10 + (c.toNat - 48)) else none

/-- Modelled from the spec: `strconv.ParseInt(s, 0, 64)` of the Go standard
library is outside this repository.  We model its decimal fragment — an
optional single sign followed by decimal digits, within 64-bit bounds —
which is the fragment the block-range DSL of the spec uses; base prefixes
such as `0x` are not modelled and error texts are abbreviated. -/
def parseInt64 (s : String) : Except String Int :=
  let cs := s.toList
  let signDigits : Bool × List Char :=
    match cs with
    | '-' :: rest => (true, rest)
    | '+' :: rest => (false, rest)
    | _ => (false, cs)
  match signDigits.2 with
  | [] => Except.error "invalid syntax"
  | _ =>
    match decDigitsGo signDigits.2 0 with
    | none => Except.error "invalid syntax"
    | some n =>
      let v : Int := if signDigits.1 then -(n : Int) else (n : Int)
      if v < -9223372036854775808 ∨ 9223372036854775807 < v then
        Except.error "value out of range"
      else Except.ok v

/-- `parseNumber` from sinker_viper.go: the parsed value, whether the input
was empty, and whether it was relative (leading `+`).  The calls
`strings.HasPrefix(number, "+")` and `strings.TrimPrefix(number, "+")` are
rendered on the character list of the input. -/
def parseNumber (number : String) : Except String (Int × Bool × Bool) :=
  if number = "" then Except.ok (0, true, false)
  else
    let numberIsRelative : Bool :=
      match number.toList with
      | '+' :: _ => true
      | _ => false
    let trimmed : String :=
      match number.toList with
      | '+' :: rest => ⟨rest⟩
      | _ => number
    match parseInt64 trimmed with
    | Except.error e => Except.error ("invalid block number value: " ++ e)
    | Except.ok numberInt64 => Except.ok (numberInt64, false, numberIsRelative)

/-- `resolveBlockNumber` from sinker_viper.go. -/
def resolveBlockNumber (value defaultIfNegative : Int) (relative : Bool) (against : Int) : Int :=
  if !relative then
    if value < 0 then defaultIfNegative else value
  else against + value

/-- Go conversion `uint64(i)` of a (possibly negative) 64-bit integer:
two's-complement wrap-around into `[0, 2^64)`. -/
def uint64OfInt (i : Int) : Nat := (i % 18446744073709551616).toNat

/-- `strings.Cut(input, ":")`: the parts before and after the first colon,
and whether a colon was found. -/
def cutColon (input : String) : String × String × Bool :=
  let spanned := input.toList.span (fun c => c != ':')
  match spanned.2 with
  | [] => (input, "", false)
  | _ :: rest => (⟨spanned.1⟩, ⟨rest⟩, true)

/-- The body of `ReadBlockRange` (sinker_viper.go lines 327-376) after
`strings.Cut`: `before` and `after` are the two pieces of the input and
`rangeHasStartAndStop` tells whether a colon was present.  Error texts for
number-parse failures abbreviate Go's `%q` quoting; the invalid-range text
is the exact source text. -/
def readBlockRangeParts (module : PbModule) (before after : String)
    (rangeHasStartAndStop : Bool) : Except String BstreamRange :=
  match parseNumber before with
  | Except.error e => Except.error ("parse number " ++ before ++ ": " ++ e)
  | Except.ok (beforeAsInt64, beforeIsEmpty, beforeIsRelative0) =>
    -- Go: if beforeIsEmpty, become relative +0 to the module start block
    let beforeIsRelative := beforeIsEmpty || beforeIsRelative0
    match (if rangeHasStartAndStop then parseNumber after
           else Except.ok ((0 : Int), false, false)) with
    | Except.error e => Except.error ("parse number " ++ after ++ ": " ++ e)
    | Except.ok (afterAsInt64, afterIsEmpty, afterIsRelative) =>
      if !rangeHasStartAndStop then
        -- no colon: the single value is a stop block
        if beforeAsInt64 < 1 then Except.ok (NewOpenRange module.initialBlock)
        else
          let start := module.initialBlock
          let stop := resolveBlockNumber beforeAsInt64 0 beforeIsRelative (Int.ofNat start)
          Except.ok (NewRangeExcludingEnd start (uint64OfInt stop))
      else
        let start := resolveBlockNumber beforeAsInt64 (Int.ofNat module.initialBlock)
          beforeIsRelative (Int.ofNat module.initialBlock)
        if afterAsInt64 = -1 then Except.ok (NewOpenRange (uint64OfInt start))
        else
          let startBlock := uint64OfInt start
          if afterIsEmpty then Except.ok (NewOpenRange startBlock)
          else
            let exclusiveEndBlock := uint64OfInt (resolveBlockNumber afterAsInt64 0 afterIsRelative start)
            if startBlock ≥ exclusiveEndBlock then
              Except.error ("invalid range: start block " ++ toString startBlock ++
                " is equal or above stop block " ++ toString exclusiveEndBlock ++ " (exclusive)")
            else Except.ok (NewRangeExcludingEnd startBlock exclusiveEndBlock)

/-- `ReadBlockRange` from sinker_viper.go lines 322-377. -/
def ReadBlockRange (module : PbModule) (input : String) : Except String BstreamRange :=
  let input' := if input = "" then ":" else input
  let cut := cutColon input'
  readBlockRangeParts module cut.1 cut.2.1 cut.2.2

/-! ### Predicates used by the buffer theorems -/

/-- Strict ordering of two block messages by clock height — the order the
buffer maintains on its live region. -/
def heightLt (x y : BlockScopedData) : Prop := x.clock.number < y.clock.number

instance : DecidableRel heightLt := fun x y =>
  inferInstanceAs (Decidable (x.clock.number < y.clock.number))

/-- Finality test of `findOldestFinalBlockIndex`: the block's height is at
most the declared final height. -/
def finalP (finalHeight : Nat) (x : BlockScopedData) : Bool :=
  decide (x.clock.number ≤ finalHeight)

/-- Invalidity test of `findNewestValidBlockIndex`: the block's height is
strictly above the undo target. -/
def aboveP (lastValidBlockHeight : Nat) (x : BlockScopedData) : Bool :=
  decide (lastValidBlockHeight < x.clock.number)

/-- Invariant tying a reachable buffer state to its trace context: `floor`
is the height of the most recent data block or undo target (`none` before
any), `finalW` the greatest declared final block height so far, and `M` the
height of the greatest block emitted so far (`none` before any emission).
It is preserved by both buffer operations along protocol-legal traces and
forces every emission to stay strictly above `M`. -/
structure BufferInv (floor : Option Nat) (finalW : Nat) (b : BlockDataBuffer)
    (M : Option Nat) : Prop where
  sorted : b.blocks.Pairwise heightLt
  aboveM : ∀ x ∈ b.blocks, ∀ m, M = some m → m < x.clock.number
  belowFloor : ∀ x ∈ b.blocks, ∃ f, floor = some f ∧ x.clock.number ≤ f
  mBound : ∀ m, M = some m →
    m ≤ finalW ∨ ∃ le, b.lastEmittedBlock = some le ∧ m ≤ le.num
  mFloor : ∀ m, M = some m → ∃ f, floor = some f ∧ m ≤ f

/-- The height of the last block of an emission batch, or the previous
watermark `M` when the batch is empty: the updated emission watermark. -/
def nextM (batch : List BlockScopedData) (M : Option Nat) : Option Nat :=
  match batch.getLast? with
  | some x => some x.clock.number
  | none => M

/-- The value `finalBlockCount` computed by `handleBlockScopedDataCont`
inside its emission branch: the length of the final prefix, or 1 when the
prefix is empty and the oldest block is pseudo-finalized. -/
def contCount (b : BlockDataBuffer) (d : BlockScopedData) : Nat :=
  let p := b.blocks.takeWhile (finalP d.finalBlockHeight)
  if p = [] then 1 else p.length

section RangeScenarioChecks

-- Scenario S6 of the spec with module initial block 5; the last case is the
-- missing-check single-value form settled by claim C9.
example : ReadBlockRange ⟨5⟩ "" = Except.ok ⟨5, none⟩ := by decide
example : ReadBlockRange ⟨5⟩ "-1" = Except.ok ⟨5, none⟩ := by decide
example : ReadBlockRange ⟨5⟩ ":" = Except.ok ⟨5, none⟩ := by decide
example : ReadBlockRange ⟨5⟩ "11" = Except.ok ⟨5, some 11⟩ := by decide
example : ReadBlockRange ⟨5⟩ "+10" = Except.ok ⟨5, some 15⟩ := by decide
example : ReadBlockRange ⟨5⟩ "10:12" = Except.ok ⟨10, some 12⟩ := by decide
example : ReadBlockRange ⟨5⟩ ":12" = Except.ok ⟨5, some 12⟩ := by decide
example : ReadBlockRange ⟨5⟩ "10:" = Except.ok ⟨10, none⟩ := by decide
example : ReadBlockRange ⟨5⟩ "+10:20" = Except.ok ⟨15, some 20⟩ := by decide
example : ReadBlockRange ⟨5⟩ ":+10" = Except.ok ⟨5, some 15⟩ := by decide
example : ReadBlockRange ⟨5⟩ "+10:" = Except.ok ⟨15, none⟩ := by decide
example : ReadBlockRange ⟨5⟩ "+10:+10" = Except.ok ⟨15, some 25⟩ := by decide
example : ReadBlockRange ⟨5⟩ "10:+10" = Except.ok ⟨10, some 20⟩ := by decide
example : ReadBlockRange ⟨0⟩ "10:10" =
    Except.error "invalid range: start block 10 is equal or above stop block 10 (exclusive)" := by
  decide
example : ReadBlockRange ⟨0⟩ "11:10" =
    Except.error "invalid range: start block 11 is equal or above stop block 10 (exclusive)" := by
  decide

end RangeScenarioChecks


section ScenarioChecks

-- Scenario S1 of the spec: capacity 3, four non-final blocks; the fourth
-- call pseudo-finalizes and emits the oldest.
example :
    (HandleBlockScopedData (newBlockDataBuffer 3) (blk 1 "a" 0)).finalBlocks = [] := by decide

example :
    let b1 := (HandleBlockScopedData (newBlockDataBuffer 3) (blk 1 "a" 0)).post
    let b2 := (HandleBlockScopedData b1 (blk 2 "a" 0)).post
    let b3 := (HandleBlockScopedData b2 (blk 3 "a" 0)).post
    let r4 := HandleBlockScopedData b3 (blk 4 "a" 0)
    r4.finalBlocks = [blk 1 "a" 0] ∧ r4.err = none ∧
      r4.post.blocks = [blk 2 "a" 0, blk 3 "a" 0, blk 4 "a" 0] ∧
      r4.post.lastEmittedBlock = some ⟨"a", 1⟩ := by decide

-- Scenario S5 of the spec: capacity 3, a finality burst flushes everything
-- including the received block itself.
example :
    let b1 := (HandleBlockScopedData (newBlockDataBuffer 3) (blk 2 "a" 1)).post
    let b2 := (HandleBlockScopedData b1 (blk 3 "a" 1)).post
    let b3 := (HandleBlockScopedData b2 (blk 4 "a" 1)).post
    let r4 := HandleBlockScopedData b3 (blk 5 "a" 5)
    r4.finalBlocks = [blk 2 "a" 1, blk 3 "a" 1, blk 4 "a" 1, blk 5 "a" 5] ∧
      r4.err = none ∧ r4.post.blocks = [] := by decide

-- Scenario S3 of the spec: ordering violation with its exact message.
example :
    let b1 := (HandleBlockScopedData (newBlockDataBuffer 2) (blk 2 "a" 0)).post
    (HandleBlockScopedData b1 (blk 1 "a" 0)).err =
      some ("received new block scoped data (Block #1 (a)) whose height is lower " ++
        "or equal than our most recent block (Block #2 (a))") := by decide

-- Scenario S4 of the spec: undo below an already emitted block errors with
-- its exact message.
example :
    let b1 := (HandleBlockScopedData (newBlockDataBuffer 2) (blk 2 "a" 0)).post
    let b2 := (HandleBlockScopedData b1 (blk 3 "a" 0)).post
    let r3 := HandleBlockScopedData b2 (blk 4 "a" 0)
    r3.finalBlocks = [blk 2 "a" 0] ∧
      (HandleBlockUndoSignal r3.post (undoSig 1 "a")).err =
        some ("cannot undo down to last valid Block #1 (a) because we already " ++
          "sent you Block #2 (a) which is after last valid block") := by decide

-- Scenario S2 of the spec: undo within the buffer is absorbed silently.
example :
    let b1 := (HandleBlockScopedData (newBlockDataBuffer 2) (blk 1 "a" 0)).post
    let b2 := (HandleBlockScopedData b1 (blk 2 "a" 0)).post
    let r3 := HandleBlockUndoSignal b2 (undoSig 1 "a")
    let r4 := HandleBlockScopedData r3.post (blk 2 "b" 0)
    let r5 := HandleBlockScopedData r4.post (blk 3 "b" 0)
    let r6 := HandleBlockScopedData r5.post (blk 4 "b" 0)
    r3.err = none ∧ r3.post.blocks = [blk 1 "a" 0] ∧
      r4.finalBlocks = [] ∧ r5.finalBlocks = [blk 1 "a" 0] ∧
      r6.finalBlocks = [blk 2 "b" 0] := by decide

end ScenarioChecks

/-! ### List helper lemmas -/

theorem dropWhile_eq_drop_length_takeWhile {α : Type} (p : α → Bool) :
    ∀ l : List α, l.dropWhile p = l.drop (l.takeWhile p).length
  | [] => rfl
  | x :: rest => by
    by_cases h : p x
    · simp only [List.dropWhile, List.takeWhile, h, List.length_cons, List.drop_succ_cons]
      exact dropWhile_eq_drop_length_takeWhile p rest
    · simp only [List.dropWhile, List.takeWhile, h, Bool.false_eq_true, if_false,
        List.length_nil, List.drop_zero]

theorem takeWhile_dropWhile_eq_nil {α : Type} (p : α → Bool) :
    ∀ l : List α, (l.dropWhile p).takeWhile p = []
  | [] => rfl
  | x :: rest => by
    by_cases h : p x
    · simp only [List.dropWhile, h]
      exact takeWhile_dropWhile_eq_nil p rest
    · simp only [List.dropWhile, List.takeWhile, h, Bool.false_eq_true, if_false]

theorem dropWhile_dropWhile {α : Type} (p : α → Bool) (l : List α) :
    (l.dropWhile p).dropWhile p = l.dropWhile p := by
  conv_lhs => rw [dropWhile_eq_drop_length_takeWhile p (l.dropWhile p),
    takeWhile_dropWhile_eq_nil]
  simp

theorem take_length_sub_eq {α : Type} (l : List α) (k : Nat) :
    l.take (l.length - k) = (l.reverse.drop k).reverse := by
  rcases le_or_lt k l.length with hk | hk
  · have hsplit : l.reverse = (l.drop (l.length - k)).reverse ++ (l.take (l.length - k)).reverse := by
      rw [← List.reverse_append, List.take_append_drop]
    have hlen : (l.drop (l.length - k)).reverse.length = k := by
      simp only [List.length_reverse, List.length_drop]
      omega
    have : l.reverse.drop k = (l.take (l.length - k)).reverse := by
      rw [hsplit]
      exact List.drop_left' hlen
    rw [this, List.reverse_reverse]
  · have h1 : l.length - k = 0 := by omega
    have h2 : l.reverse.drop k = [] := by
      apply List.drop_eq_nil_of_le
      simp only [List.length_reverse]
      omega
    simp [h1, h2]

theorem mem_of_getLast?_eq {α : Type} :
    ∀ {l : List α} {a : α}, l.getLast? = some a → a ∈ l
  | [], _, h => by simp at h
  | [x], a, h => by
    simp only [List.getLast?_singleton, Option.some.injEq] at h
    simp [h]
  | x :: y :: rest, a, h => by
    rw [List.getLast?_cons_cons] at h
    exact List.mem_cons_of_mem x (mem_of_getLast?_eq h)

/-- In a strictly height-sorted list every element's height is at most the
height of the last element. -/
theorem height_le_getLast_of_sorted :
    ∀ {l : List BlockScopedData}, l.Pairwise heightLt →
      ∀ {hb}, l.getLast? = some hb → ∀ x ∈ l, x.clock.number ≤ hb.clock.number
  | [], _, _, h => by simp at h
  | [y], _, hb, h => by
    simp only [List.getLast?_singleton, Option.some.injEq] at h
    intro x hx
    simp only [List.mem_singleton] at hx
    simp [hx, h]
  | y :: z :: rest, hp, hb, h => by
    rw [List.getLast?_cons_cons] at h
    intro x hx
    rcases List.mem_cons.mp hx with hxy | hxtail
    · have hmem : hb ∈ z :: rest := mem_of_getLast?_eq h
      have := (List.pairwise_cons.mp hp).1 hb hmem
      rw [hxy]
      exact Nat.le_of_lt this
    · exact height_le_getLast_of_sorted (List.pairwise_cons.mp hp).2 h x hxtail

/-! ### Characterizations of the two scan loops -/

theorem findOldestFinalBlockIndexGo_spec (fh : Nat) :
    ∀ (l : List BlockScopedData) (i : Nat),
      findOldestFinalBlockIndexGo fh l i ((i : Int) - 1) =
        (i : Int) - 1 + (l.takeWhile (finalP fh)).length
  | [], i => by simp [findOldestFinalBlockIndexGo]
  | x :: rest, i => by
    simp only [findOldestFinalBlockIndexGo]
    by_cases h : fh < x.clock.number
    · rw [if_pos h]
      have hx : finalP fh x = false := by simp only [finalP, decide_eq_false_iff_not]; omega
      simp only [List.takeWhile, hx, Bool.false_eq_true, if_false, List.length_nil,
        Int.ofNat_eq_coe, Nat.cast_zero, add_zero]
    · rw [if_neg h]
      have hcast : Int.ofNat i = ((i + 1 : Nat) : Int) - 1 := by
        rw [Int.ofNat_eq_coe]
        push_cast
        ring
      rw [hcast, findOldestFinalBlockIndexGo_spec fh rest (i + 1)]
      have hx : finalP fh x = true := by simp only [finalP, decide_eq_true_eq]; omega
      simp only [List.takeWhile, hx, if_true, List.length_cons]
      push_cast
      ring

theorem findOldestFinalBlockIndex_eq (b : BlockDataBuffer) (fh : Nat) :
    findOldestFinalBlockIndex b fh =
      ((b.blocks.takeWhile (finalP fh)).length : Int) - 1 := by
  have h := findOldestFinalBlockIndexGo_spec fh b.blocks 0
  rw [findOldestFinalBlockIndex]
  have h0 : (-1 : Int) = ((0 : Nat) : Int) - 1 := by norm_num
  rw [h0, h]
  push_cast
  ring

theorem findNewestValidBlockIndexGo_spec (L : Nat) :
    ∀ r : List BlockScopedData,
      (findNewestValidBlockIndexGo L r r.length + 1).toNat =
        r.length - (r.takeWhile (aboveP L)).length
  | [] => by simp [findNewestValidBlockIndexGo]
  | x :: rest => by
    simp only [List.length_cons, findNewestValidBlockIndexGo]
    by_cases h : x.clock.number ≤ L
    · rw [if_pos h]
      have hx : aboveP L x = false := by simp only [aboveP, decide_eq_false_iff_not]; omega
      simp only [List.takeWhile, hx, Bool.false_eq_true, if_false, List.length_nil,
        Int.ofNat_eq_coe]
      omega
    · rw [if_neg h]
      have hlen : rest.length + 1 - 1 = rest.length := rfl
      rw [hlen, findNewestValidBlockIndexGo_spec L rest]
      have hx : aboveP L x = true := by simp only [aboveP, decide_eq_true_eq]; omega
      have htw : (rest.takeWhile (aboveP L)).length ≤ rest.length :=
        List.Sublist.length_le (List.takeWhile_sublist _)
      simp only [List.takeWhile, hx, if_true, List.length_cons]
      omega

/-- The undo truncation drops from the end of the live region exactly the
blocks above the undo target. -/
theorem handleBlockUndoSignalCont_spec (b : BlockDataBuffer) (lv : BlockRef) :
    handleBlockUndoSignalCont b lv =
      ⟨none, { b with blocks := (b.blocks.reverse.dropWhile (aboveP lv.num)).reverse }⟩ := by
  rw [handleBlockUndoSignalCont]
  by_cases hb : b.blocks.length = 0
  · have hnil : b.blocks = [] := List.length_eq_zero.mp hb
    rw [if_pos (by simp [hb])]
    cases b
    simp_all
  · rw [if_neg (by simp [hb])]
    have hfind : (findNewestValidBlockIndex b lv.num + 1).toNat =
        b.blocks.length - (b.blocks.reverse.takeWhile (aboveP lv.num)).length := by
      rw [findNewestValidBlockIndex]
      have hlen : b.blocks.length = b.blocks.reverse.length := (List.length_reverse _).symm
      rw [hlen, findNewestValidBlockIndexGo_spec lv.num b.blocks.reverse, ← hlen]
    rw [hfind, take_length_sub_eq, ← dropWhile_eq_drop_length_takeWhile]

theorem handleBlockUndoSignalCont_idem (b : BlockDataBuffer) (lv : BlockRef) :
    handleBlockUndoSignalCont (handleBlockUndoSignalCont b lv).post lv =
      handleBlockUndoSignalCont b lv := by
  rw [handleBlockUndoSignalCont_spec b lv]
  rw [handleBlockUndoSignalCont_spec _ lv]
  simp [List.reverse_reverse, dropWhile_dropWhile]

/-- C8 — Undo idempotence: for every buffer state and undo signal, a second
consecutive `HandleBlockUndoSignal` call with the same argument returns the
same error (or success) and leaves the buffer in exactly the state produced
by the first call. -/
theorem undo_idempotent (b : BlockDataBuffer) (u : BlockUndoSignal) :
    HandleBlockUndoSignal (HandleBlockUndoSignal b u).post u =
      ⟨(HandleBlockUndoSignal b u).err, (HandleBlockUndoSignal b u).post⟩ := by
  cases hle : b.lastEmittedBlock with
  | none =>
    have h1 : HandleBlockUndoSignal b u =
        handleBlockUndoSignalCont b (asBlockRef u.lastValidBlock) := by
      simp only [HandleBlockUndoSignal, hle]
    rw [h1, handleBlockUndoSignalCont_spec]
    simp only [HandleBlockUndoSignal, hle]
    rw [handleBlockUndoSignalCont_spec]
    simp only [List.reverse_reverse, dropWhile_dropWhile]
  | some le =>
    by_cases hg : (decide ((asBlockRef u.lastValidBlock).num ≤ le.num) &&
        !(EqualsBlockRefs le (asBlockRef u.lastValidBlock))) = true
    · have h1 : HandleBlockUndoSignal b u =
          ⟨some (undoPastEmittedMessage (asBlockRef u.lastValidBlock) le), b⟩ := by
        simp only [HandleBlockUndoSignal, hle]
        rw [if_pos hg]
      rw [h1]
      simp only [HandleBlockUndoSignal, hle]
      rw [if_pos hg]
    · have h1 : HandleBlockUndoSignal b u =
          handleBlockUndoSignalCont b (asBlockRef u.lastValidBlock) := by
        simp only [HandleBlockUndoSignal, hle]
        rw [if_neg hg]
      rw [h1, handleBlockUndoSignalCont_spec]
      simp only [HandleBlockUndoSignal, hle]
      rw [if_neg hg, handleBlockUndoSignalCont_spec]
      simp only [List.reverse_reverse, dropWhile_dropWhile]

/-! ### Characterization of `handleBlockScopedDataCont` -/

theorem finishHandleBlockScopedData_err (b : BlockDataBuffer)
    (fb : List BlockScopedData) (d : BlockScopedData) :
    (finishHandleBlockScopedData b fb d).err = none := by
  rw [finishHandleBlockScopedData]
  split <;> rfl

/-- The emission branch condition and the count of emitted buffered blocks,
expressed through the `takeWhile` prefix of server-final blocks. -/
theorem handleBlockScopedDataCont_eq (b : BlockDataBuffer) (d : BlockScopedData) :
    handleBlockScopedDataCont b d =
      if b.blocks.length = b.capacity ∨
          b.blocks.takeWhile (finalP d.finalBlockHeight) ≠ [] then
        match (b.blocks.take (contCount b d)).getLast? with
        | some lastB =>
            finishHandleBlockScopedData
              { b with blocks := b.blocks.drop (contCount b d),
                       lastEmittedBlock := some (blockToRef lastB) }
              (b.blocks.take (contCount b d)) d
        | none =>
            ⟨[], some "panic: runtime error: invalid memory address or nil pointer dereference", b⟩
      else finishHandleBlockScopedData b [] d := by
  rw [handleBlockScopedDataCont, findOldestFinalBlockIndex_eq]
  by_cases hp : b.blocks.takeWhile (finalP d.finalBlockHeight) = []
  · have hA : (((b.blocks.takeWhile (finalP d.finalBlockHeight)).length : Int) - 1) = -1 := by
      rw [hp]
      norm_num
    have hc : contCount b d = 1 := by rw [contCount]; simp [hp]
    by_cases hfull : b.blocks.length = b.capacity
    · rw [if_pos (Or.inl hfull)]
      have hcond : ((b.blocks.length == b.capacity) || (((-1 : Int)) != -1)) = true := by
        simp [hfull]
      have hbeq : ((-1 : Int) == -1) = true := by norm_num
      have hcnt : (((0 : Int)) + 1).toNat = 1 := by norm_num
      simp only [hA, hcond, if_true, hbeq, hcnt, hc]
    · have hcondL : ¬((b.blocks.length == b.capacity ||
          ((((b.blocks.takeWhile (finalP d.finalBlockHeight)).length : Int) - 1) != -1)) = true) := by
        simp [hfull, hp]
      rw [if_neg hcondL,
        if_neg (show ¬(b.blocks.length = b.capacity ∨
          b.blocks.takeWhile (finalP d.finalBlockHeight) ≠ []) by simp [hfull, hp])]
  · rw [if_pos (Or.inr hp)]
    have hlenpos : 0 < (b.blocks.takeWhile (finalP d.finalBlockHeight)).length :=
      List.length_pos.mpr hp
    have hc : contCount b d = (b.blocks.takeWhile (finalP d.finalBlockHeight)).length := by
      rw [contCount]; simp [hp]
    have hne : ((((b.blocks.takeWhile (finalP d.finalBlockHeight)).length : Int) - 1) != -1) = true := by
      rw [bne_iff_ne]
      omega
    have hcond : ((b.blocks.length == b.capacity) ||
        ((((b.blocks.takeWhile (finalP d.finalBlockHeight)).length : Int) - 1) != -1)) = true := by
      rw [hne, Bool.or_true]
    have hbeq : ((((b.blocks.takeWhile (finalP d.finalBlockHeight)).length : Int) - 1) == -1) = false := by
      simp only [beq_eq_false_iff_ne, ne_eq]
      omega
    have htoNat : ((((b.blocks.takeWhile (finalP d.finalBlockHeight)).length : Int) - 1) + 1).toNat =
        (b.blocks.takeWhile (finalP d.finalBlockHeight)).length := by
      omega
    simp only [hcond, if_true, hbeq, Bool.false_eq_true, if_false, htoNat, hc]

theorem handleBlockScopedDataCont_err_atomic (b : BlockDataBuffer) (d : BlockScopedData)
    (e : String) (he : (handleBlockScopedDataCont b d).err = some e) :
    (handleBlockScopedDataCont b d).post = b ∧
      (handleBlockScopedDataCont b d).finalBlocks = [] := by
  rw [handleBlockScopedDataCont_eq] at he ⊢
  by_cases hcond : b.blocks.length = b.capacity ∨
      b.blocks.takeWhile (finalP d.finalBlockHeight) ≠ []
  · rw [if_pos hcond] at he ⊢
    rcases hlast : (b.blocks.take (contCount b d)).getLast? with _ | lastB
    · simp only [hlast] at he ⊢
      trivial
    · simp only [hlast] at he
      rw [finishHandleBlockScopedData_err] at he
      cases he
  · rw [if_neg hcond] at he
    rw [finishHandleBlockScopedData_err] at he
    cases he

/-- C10 — Buffer error atomicity: whenever `HandleBlockScopedData` or
`HandleBlockUndoSignal` returns a non-nil error, the buffer state is exactly
as it was before the call and no blocks are emitted. -/
theorem buffer_error_atomicity (b : BlockDataBuffer) (d : BlockScopedData)
    (u : BlockUndoSignal) :
    (∀ e, (HandleBlockScopedData b d).err = some e →
      (HandleBlockScopedData b d).post = b ∧
        (HandleBlockScopedData b d).finalBlocks = []) ∧
    (∀ e, (HandleBlockUndoSignal b u).err = some e →
      (HandleBlockUndoSignal b u).post = b) := by
  constructor
  · intro e he
    rcases hlast : b.blocks.getLast? with _ | hb
    · have h1 : HandleBlockScopedData b d = handleBlockScopedDataCont b d := by
        simp only [HandleBlockScopedData, hlast]
      rw [h1] at he ⊢
      exact handleBlockScopedDataCont_err_atomic b d e he
    · by_cases hord : d.clock.number ≤ hb.clock.number
      · have h1 : HandleBlockScopedData b d =
            ⟨[], some (orderingViolationMessage d hb), b⟩ := by
          simp only [HandleBlockScopedData, hlast]
          rw [if_pos hord]
        rw [h1]
        exact ⟨rfl, rfl⟩
      · have h1 : HandleBlockScopedData b d = handleBlockScopedDataCont b d := by
          simp only [HandleBlockScopedData, hlast]
          rw [if_neg hord]
        rw [h1] at he ⊢
        exact handleBlockScopedDataCont_err_atomic b d e he
  · intro e he
    rcases hle : b.lastEmittedBlock with _ | le
    · have h1 : HandleBlockUndoSignal b u =
          handleBlockUndoSignalCont b (asBlockRef u.lastValidBlock) := by
        simp only [HandleBlockUndoSignal, hle]
      rw [h1, handleBlockUndoSignalCont_spec] at he
      cases he
    · by_cases hg : (decide ((asBlockRef u.lastValidBlock).num ≤ le.num) &&
          !(EqualsBlockRefs le (asBlockRef u.lastValidBlock))) = true
      · have h1 : HandleBlockUndoSignal b u =
            ⟨some (undoPastEmittedMessage (asBlockRef u.lastValidBlock) le), b⟩ := by
          simp only [HandleBlockUndoSignal, hle]
          rw [if_pos hg]
        rw [h1]
      · have h1 : HandleBlockUndoSignal b u =
            handleBlockUndoSignalCont b (asBlockRef u.lastValidBlock) := by
          simp only [HandleBlockUndoSignal, hle]
          rw [if_neg hg]
        rw [h1, handleBlockUndoSignalCont_spec] at he
        cases he

/-- Witness for C10 at concrete inputs: an ordering violation (block #1
received after #2) and an undo below the emitted block #2 both leave their
buffers untouched and emit nothing. -/
theorem buffer_error_atomicity_witness :
    ((HandleBlockScopedData ⟨2, [blk 2 "a" 0], none⟩ (blk 1 "a" 0)).post =
        ⟨2, [blk 2 "a" 0], none⟩ ∧
      (HandleBlockScopedData ⟨2, [blk 2 "a" 0], none⟩ (blk 1 "a" 0)).finalBlocks = []) ∧
    (HandleBlockUndoSignal ⟨2, [blk 3 "a" 0, blk 4 "a" 0], some ⟨"a", 2⟩⟩
        (undoSig 1 "a")).post = ⟨2, [blk 3 "a" 0, blk 4 "a" 0], some ⟨"a", 2⟩⟩ :=
  ⟨(buffer_error_atomicity ⟨2, [blk 2 "a" 0], none⟩ (blk 1 "a" 0) (undoSig 1 "a")).1
      (orderingViolationMessage (blk 1 "a" 0) (blk 2 "a" 0)) (by decide),
   (buffer_error_atomicity ⟨2, [blk 3 "a" 0, blk 4 "a" 0], some ⟨"a", 2⟩⟩ (blk 1 "a" 0)
      (undoSig 1 "a")).2
      (undoPastEmittedMessage ⟨"a", 1⟩ ⟨"a", 2⟩) (by decide)⟩

/-- C2 — Ordering precondition: on a non-empty, height-sorted buffer, a
block whose height is at most the height of the highest buffered block (the
last of the live region) makes `HandleBlockScopedData` return the
ordering-violation error naming both blocks, emit nothing and leave the
buffer unchanged. -/
theorem ordering_precondition_violation (b : BlockDataBuffer)
    (d hb : BlockScopedData)
    (hsorted : b.blocks.Pairwise heightLt)
    (hlast : b.blocks.getLast? = some hb)
    (hle : d.clock.number ≤ hb.clock.number) :
    HandleBlockScopedData b d = ⟨[], some (orderingViolationMessage d hb), b⟩ ∧
    ∀ x ∈ b.blocks, x.clock.number ≤ hb.clock.number := by
  constructor
  · simp only [HandleBlockScopedData, hlast]
    rw [if_pos hle]
  · exact height_le_getLast_of_sorted hsorted hlast

/-- Witness for C2: scenario S3 of the spec — receiving block #1 after
block #2 errors with the exact message of the source. -/
theorem ordering_precondition_violation_witness :
    HandleBlockScopedData ⟨2, [blk 2 "a" 0], none⟩ (blk 1 "a" 0) =
      ⟨[], some (orderingViolationMessage (blk 1 "a" 0) (blk 2 "a" 0)),
        ⟨2, [blk 2 "a" 0], none⟩⟩ ∧
    ∀ x ∈ (BlockDataBuffer.mk 2 [blk 2 "a" 0] none).blocks,
      x.clock.number ≤ (blk 2 "a" 0).clock.number :=
  ordering_precondition_violation ⟨2, [blk 2 "a" 0], none⟩ (blk 1 "a" 0) (blk 2 "a" 0)
    (by decide) (by decide) (by decide)

theorem EqualsBlockRefs_eq_true_iff (l r : BlockRef) :
    EqualsBlockRefs l r = true ↔ l = r := by
  cases l
  cases r
  simp [EqualsBlockRefs, and_comm]

/-- C4 — Undo-past-emitted guard: when `last_emitted_block` is set and its
height is at least the undo signal's last valid height, the call fails with
the error naming both blocks unless the two refs are equal (same id and
height), in which case it succeeds. -/
theorem undo_past_emitted_guard (b : BlockDataBuffer) (u : BlockUndoSignal)
    (le : BlockRef) (hle : b.lastEmittedBlock = some le) :
    ((asBlockRef u.lastValidBlock).num ≤ le.num →
      le ≠ asBlockRef u.lastValidBlock →
      HandleBlockUndoSignal b u =
        ⟨some (undoPastEmittedMessage (asBlockRef u.lastValidBlock) le), b⟩) ∧
    (le = asBlockRef u.lastValidBlock → (HandleBlockUndoSignal b u).err = none) := by
  constructor
  · intro hnum hne
    have heq : EqualsBlockRefs le (asBlockRef u.lastValidBlock) = false := by
      rw [← Bool.not_eq_true, EqualsBlockRefs_eq_true_iff]
      exact hne
    have hcond : (decide ((asBlockRef u.lastValidBlock).num ≤ le.num) &&
        !(EqualsBlockRefs le (asBlockRef u.lastValidBlock))) = true := by
      simp [hnum, heq]
    simp only [HandleBlockUndoSignal, hle]
    rw [if_pos hcond]
  · intro heq
    have hEq : EqualsBlockRefs le (asBlockRef u.lastValidBlock) = true :=
      (EqualsBlockRefs_eq_true_iff _ _).mpr heq
    have hcond : ¬((decide ((asBlockRef u.lastValidBlock).num ≤ le.num) &&
        !(EqualsBlockRefs le (asBlockRef u.lastValidBlock))) = true) := by
      simp [hEq]
    simp only [HandleBlockUndoSignal, hle]
    rw [if_neg hcond, handleBlockUndoSignalCont_spec]

/-- Witness for C4: scenario S4 of the spec — after emitting block #2 (a),
undoing to #1 (a) errors with the exact message of the source, while
undoing exactly to #2 (a) succeeds. -/
theorem undo_past_emitted_guard_witness :
    HandleBlockUndoSignal ⟨2, [blk 3 "a" 0, blk 4 "a" 0], some ⟨"a", 2⟩⟩ (undoSig 1 "a") =
      ⟨some (undoPastEmittedMessage ⟨"a", 1⟩ ⟨"a", 2⟩),
        ⟨2, [blk 3 "a" 0, blk 4 "a" 0], some ⟨"a", 2⟩⟩⟩ ∧
    (HandleBlockUndoSignal ⟨2, [blk 3 "a" 0, blk 4 "a" 0], some ⟨"a", 2⟩⟩
        (undoSig 2 "a")).err = none :=
  ⟨(undo_past_emitted_guard ⟨2, [blk 3 "a" 0, blk 4 "a" 0], some ⟨"a", 2⟩⟩
      (undoSig 1 "a") ⟨"a", 2⟩ rfl).1 (by decide) (by decide),
   (undo_past_emitted_guard ⟨2, [blk 3 "a" 0, blk 4 "a" 0], some ⟨"a", 2⟩⟩
      (undoSig 2 "a") ⟨"a", 2⟩ rfl).2 (by decide)⟩

/-! ### Final-block pass-through -/

theorem takeWhile_eq_self_of_forall {α : Type} (p : α → Bool) :
    ∀ l : List α, (∀ x ∈ l, p x = true) → l.takeWhile p = l
  | [], _ => rfl
  | x :: rest, h => by
    have hx : p x = true := h x (List.mem_cons_self x rest)
    simp only [List.takeWhile, hx, if_true, List.cons.injEq, true_and]
    exact takeWhile_eq_self_of_forall p rest (fun y hy => h y (List.mem_cons_of_mem x hy))

theorem getLast?_isSome_of_ne_nil {α : Type} :
    ∀ {l : List α}, l ≠ [] → ∃ a, l.getLast? = some a
  | [], h => absurd rfl h
  | [x], _ => ⟨x, rfl⟩
  | _ :: y :: rest, _ => by
    rw [List.getLast?_cons_cons]
    exact getLast?_isSome_of_ne_nil (by simp)

/-- C3 — Final-block pass-through: on a height-sorted buffer of positive
capacity, a received block that is itself final (`clock.number` at most its
own `final_block_height`) and respects the ordering precondition makes
`HandleBlockScopedData` succeed with a non-empty emission list ending in the
received block, and the block is not retained — in fact the whole live
region is flushed. -/
theorem final_block_passthrough (b : BlockDataBuffer) (d : BlockScopedData)
    (hcap : 1 ≤ b.capacity)
    (hsorted : b.blocks.Pairwise heightLt)
    (hord : ∀ hb, b.blocks.getLast? = some hb → hb.clock.number < d.clock.number)
    (hfin : d.clock.number ≤ d.finalBlockHeight) :
    (HandleBlockScopedData b d).err = none ∧
    (HandleBlockScopedData b d).finalBlocks ≠ [] ∧
    (HandleBlockScopedData b d).finalBlocks.getLast? = some d ∧
    (HandleBlockScopedData b d).post.blocks = [] := by
  have hall : ∀ x ∈ b.blocks, x.clock.number < d.clock.number := by
    intro x hx
    have hne : b.blocks ≠ [] := by
      intro h
      rw [h] at hx
      cases hx
    obtain ⟨hb, hlast⟩ := getLast?_isSome_of_ne_nil hne
    exact Nat.lt_of_le_of_lt
      (height_le_getLast_of_sorted hsorted hlast x hx) (hord hb hlast)
  have hp : b.blocks.takeWhile (finalP d.finalBlockHeight) = b.blocks := by
    apply takeWhile_eq_self_of_forall
    intro x hx
    simp only [finalP, decide_eq_true_eq]
    exact Nat.le_trans (Nat.le_of_lt (hall x hx)) hfin
  have hcont : HandleBlockScopedData b d = handleBlockScopedDataCont b d := by
    rcases hlast : b.blocks.getLast? with _ | hb
    · simp only [HandleBlockScopedData, hlast]
    · simp only [HandleBlockScopedData, hlast]
      rw [if_neg (by exact Nat.not_le_of_lt (hord hb hlast))]
  rw [hcont, handleBlockScopedDataCont_eq]
  by_cases hbe : b.blocks = []
  · rw [if_neg (show ¬(b.blocks.length = b.capacity ∨
        b.blocks.takeWhile (finalP d.finalBlockHeight) ≠ []) by simp [hbe]; omega)]
    rw [finishHandleBlockScopedData, if_pos hfin]
    exact ⟨rfl, by simp, by simp, hbe⟩
  · have hpne : b.blocks.takeWhile (finalP d.finalBlockHeight) ≠ [] := by
      rw [hp]
      exact hbe
    rw [if_pos (Or.inr hpne)]
    have hcnt : contCount b d = b.blocks.length := by
      rw [contCount]
      simp only [hp]
      rw [if_neg hbe]
    rw [hcnt, List.take_length, List.drop_length]
    obtain ⟨hb, hlast⟩ := getLast?_isSome_of_ne_nil hbe
    simp only [hlast]
    rw [finishHandleBlockScopedData, if_pos hfin]
    refine ⟨rfl, by simp, ?_, rfl⟩
    simp only [List.getLast?_concat]

/-- Witness for C3: a buffer of capacity 3 holding block #2 receives the
final block #3; both are flushed with #3 last and the buffer empties. -/
theorem final_block_passthrough_witness :
    (HandleBlockScopedData ⟨3, [blk 2 "a" 0], none⟩ (blk 3 "a" 3)).err = none ∧
    (HandleBlockScopedData ⟨3, [blk 2 "a" 0], none⟩ (blk 3 "a" 3)).finalBlocks ≠ [] ∧
    (HandleBlockScopedData ⟨3, [blk 2 "a" 0], none⟩ (blk 3 "a" 3)).finalBlocks.getLast? =
      some (blk 3 "a" 3) ∧
    (HandleBlockScopedData ⟨3, [blk 2 "a" 0], none⟩ (blk 3 "a" 3)).post.blocks = [] :=
  final_block_passthrough ⟨3, [blk 2 "a" 0], none⟩ (blk 3 "a" 3)
    (by decide) (by decide) (by decide) (by decide)

/-! ### Sinker claims -/

/-- C5 — Cancellation is never retried: when a `doRequest` outcome carries a
context cancellation or a gRPC Cancelled status (and is not the `io.EOF`
success), the request loop of `Sinker.run` terminates at once with that
error — no backoff sleep is performed and the rest of the trace (any
reconnect) is never reached — and `Sinker.Run` passes nil to `Shutdown`
exactly when the caller's own context reports `context.Canceled`. -/
theorem canceled_never_retried (maxRetries attemptsLeft sleeps : Nat)
    (e : DoRequestOutcome) (rest : List DoRequestOutcome)
    (hcancel : e.isCtxCanceled = true ∨ e.isGRPCCanceled = true)
    (heof : e.isEOF = false) :
    runLoopGo maxRetries attemptsLeft sleeps (e :: rest) =
      some (some (RunError.fromRequest e), sleeps) ∧
    ∀ ctxErrIsCanceled : Bool,
      runShutdownErr ctxErrIsCanceled (some (RunError.fromRequest e)) = none ↔
        ctxErrIsCanceled = true := by
  constructor
  · have hor : (e.isCtxCanceled || e.isGRPCCanceled) = true := by
      rcases hcancel with h | h <;> simp [h]
    simp only [runLoopGo, heof, Bool.false_eq_true, if_false, hor, if_true]
  · intro c
    cases c <;> simp [runShutdownErr]

/-- Witness for C5: a gRPC-Cancelled outcome with retries still available
terminates the loop immediately; the shutdown error is nil only for the
caller's own cancellation. -/
theorem canceled_never_retried_witness :
    runLoopGo 15 15 0
        [⟨true, false, false, true, true⟩, ⟨true, false, false, false, true⟩] =
      some (some (RunError.fromRequest ⟨true, false, false, true, true⟩), 0) ∧
    ∀ ctxErrIsCanceled : Bool,
      runShutdownErr ctxErrIsCanceled
          (some (RunError.fromRequest ⟨true, false, false, true, true⟩)) = none ↔
        ctxErrIsCanceled = true :=
  canceled_never_retried 15 15 0 ⟨true, false, false, true, true⟩
    [⟨true, false, false, false, true⟩] (Or.inr rfl) rfl

/-- C6 — Run preconditions: `Sinker.run` fails with a configuration error —
before any client or stream is created — when the block-scoped-data handler
is missing, or when final-blocks-only is off and the undo handler is
missing; with final-blocks-only on, a missing undo handler is accepted and
the run proceeds to open the stream. -/
theorem run_preconditions (finalBlocksOnly : Bool) (handlers : SinkerHandlersPresent) :
    (handlers.hasHandleBlockScopedData = false →
      runPreflight finalBlocksOnly handlers =
        RunPreflight.configError "block scope data hanlder not set") ∧
    (finalBlocksOnly = false → handlers.hasHandleBlockScopedData = true →
      handlers.hasHandleBlockUndoSignal = false →
      runPreflight finalBlocksOnly handlers =
        RunPreflight.configError
          "requesting non-final block and block undo signal handler is not set") ∧
    (finalBlocksOnly = true → handlers.hasHandleBlockScopedData = true →
      runPreflight finalBlocksOnly handlers = RunPreflight.proceedToStream) := by
  refine ⟨?_, ?_, ?_⟩
  · intro h
    simp [runPreflight, h]
  · intro hf hd hu
    simp [runPreflight, hf, hd, hu]
  · intro hf hd
    simp [runPreflight, hf, hd]

/-- Witness for C6 at the three concrete handler configurations. -/
theorem run_preconditions_witness :
    runPreflight false ⟨false, true⟩ =
      RunPreflight.configError "block scope data hanlder not set" ∧
    runPreflight false ⟨true, false⟩ =
      RunPreflight.configError
        "requesting non-final block and block undo signal handler is not set" ∧
    runPreflight true ⟨true, false⟩ = RunPreflight.proceedToStream :=
  ⟨(run_preconditions false ⟨false, true⟩).1 rfl,
   (run_preconditions false ⟨true, false⟩).2.1 rfl rfl rfl,
   (run_preconditions true ⟨true, false⟩).2.2 rfl rfl⟩

/-! ### Cursor equality -/

/-- C7 — Cursor equality, evaluated at the failing input: `IsEqualTo`
returns `false` for two structurally identical bound cursors (the deep
comparison of types.go line 166 is unreachable because the guard on line
158 reads `!c.IsBlank() || !other.IsBlank()` instead of
`c.IsBlank() || other.IsBlank()`), while two blank cursors do compare
equal. -/
theorem cursor_isEqualTo_bound_eval :
    Cursor.IsEqualTo (some ⟨0, ⟨"a", 1⟩, ⟨"a", 1⟩, ⟨"a", 1⟩⟩)
        (some ⟨0, ⟨"a", 1⟩, ⟨"a", 1⟩, ⟨"a", 1⟩⟩) = false ∧
    Cursor.IsEqualTo none none = true := by decide

/-! ### Block range claims -/

/-- C9 counterexample — the single-value form skips the start-below-stop
check: with module initial block 10, the input `"10"` resolves to start 10
and exclusive stop 10 yet `ReadBlockRange` returns that empty range instead
of an error. -/
theorem range_single_value_counterexample :
    ReadBlockRange ⟨10⟩ "10" = Except.ok ⟨10, some 10⟩ := by decide

/-- C9 (amended) — for inputs in the two-part `start:stop` form, every
bounded range `ReadBlockRange` returns has its start strictly below its
exclusive stop: the `start ≥ stop` check of sinker_viper.go line 371 fires
on that branch (only the single-value form bypasses it). -/
theorem range_colon_form_start_lt_stop (module : PbModule) (before after : String)
    (r : BstreamRange) (e : Nat)
    (hok : readBlockRangeParts module before after true = Except.ok r)
    (hend : r.exclusiveEndBlock = some e) :
    r.startBlock < e := by
  rw [readBlockRangeParts] at hok
  split at hok
  · cases hok
  · split at hok
    · cases hok
    · simp only [Bool.not_true, Bool.false_eq_true, if_false] at hok
      split at hok
      · cases hok
        cases hend
      · split at hok
        · cases hok
          cases hend
        · split at hok
          · cases hok
          · rename_i hlt
            cases hok
            dsimp only [NewRangeExcludingEnd] at hend ⊢
            cases hend
            omega

/-- Witness for C9 (amended): the colon-form input `10:12` yields the range
`[10, 12)` whose start is strictly below its stop. -/
theorem range_colon_form_start_lt_stop_witness :
    (10 : Nat) < 12 :=
  range_colon_form_start_lt_stop ⟨5⟩ "10" "12" ⟨10, some 12⟩ 12 (by decide) rfl

/-! ### Monotone emission along protocol-legal traces -/

theorem dropWhile_head_false {α : Type} (p : α → Bool) :
    ∀ (l : List α) {x : α} {xs : List α}, l.dropWhile p = x :: xs → p x = false
  | [], x, xs, h => by cases h
  | y :: rest, x, xs, h => by
    by_cases hy : p y
    · rw [List.dropWhile_cons_of_pos hy] at h
      exact dropWhile_head_false p rest h
    · rw [List.dropWhile_cons_of_neg hy] at h
      cases h
      exact eq_false_of_ne_true (fun hc => hy hc)

/-- Invariant preservation by a successful `HandleBlockUndoSignal` under a
protocol-legal undo (its target at least the greatest declared final
height). -/
theorem bufferInv_undo_step {floor : Option Nat} {finalW : Nat}
    {b : BlockDataBuffer} {u : BlockUndoSignal} {M : Option Nat}
    (inv : BufferInv floor finalW b M)
    (hW : finalW ≤ u.lastValidBlock.number)
    (hok : (HandleBlockUndoSignal b u).err = none) :
    BufferInv (some u.lastValidBlock.number) finalW (HandleBlockUndoSignal b u).post M := by
  have hL : (asBlockRef u.lastValidBlock).num = u.lastValidBlock.number := rfl
  -- the successful call truncates through handleBlockUndoSignalCont and the
  -- guard bounds the emitted watermark by the undo target
  have hmain : HandleBlockUndoSignal b u =
        handleBlockUndoSignalCont b (asBlockRef u.lastValidBlock) ∧
      (∀ le, b.lastEmittedBlock = some le → le.num ≤ u.lastValidBlock.number) := by
    rcases hle : b.lastEmittedBlock with _ | le
    · refine ⟨by simp only [HandleBlockUndoSignal, hle], ?_⟩
      intro le h
      cases h
    · by_cases hg : (decide ((asBlockRef u.lastValidBlock).num ≤ le.num) &&
          !(EqualsBlockRefs le (asBlockRef u.lastValidBlock))) = true
      · exfalso
        have : HandleBlockUndoSignal b u =
            ⟨some (undoPastEmittedMessage (asBlockRef u.lastValidBlock) le), b⟩ := by
          simp only [HandleBlockUndoSignal, hle]
          rw [if_pos hg]
        rw [this] at hok
        cases hok
      · refine ⟨?_, ?_⟩
        · simp only [HandleBlockUndoSignal, hle]
          rw [if_neg hg]
        · intro le' hle'
          cases hle'
          simp only [Bool.and_eq_true, Bool.not_eq_true', decide_eq_true_eq,
            not_and] at hg
          by_cases hord : u.lastValidBlock.number ≤ le.num
          · have hnf := hg (by rw [hL]; exact hord)
            have htrue : EqualsBlockRefs le (asBlockRef u.lastValidBlock) = true := by
              cases hE : EqualsBlockRefs le (asBlockRef u.lastValidBlock)
              · exact absurd hE hnf
              · rfl
            have heq : le = asBlockRef u.lastValidBlock :=
              (EqualsBlockRefs_eq_true_iff _ _).mp htrue
            rw [heq, hL]
          · omega
    -- end hmain
  obtain ⟨hcall, hguard⟩ := hmain
  rw [hcall, handleBlockUndoSignalCont_spec]
  set P := aboveP (asBlockRef u.lastValidBlock).num with hP
  set l' := (b.blocks.reverse.dropWhile P).reverse with hl'
  have hsub : l'.Sublist b.blocks := by
    have h1 : (b.blocks.reverse.dropWhile P).Sublist b.blocks.reverse :=
      List.dropWhile_sublist P
    have h2 := h1.reverse
    rwa [List.reverse_reverse] at h2
  have hmem : ∀ x ∈ l', x ∈ b.blocks := fun x hx => hsub.subset hx
  have hsorted : l'.Pairwise heightLt := inv.sorted.sublist hsub
  have hbelow : ∀ x ∈ l', x.clock.number ≤ u.lastValidBlock.number := by
    intro x hx
    have hne : l' ≠ [] := by
      intro h
      rw [h] at hx
      cases hx
    obtain ⟨a, hlast⟩ := getLast?_isSome_of_ne_nil hne
    have hahd : (b.blocks.reverse.dropWhile P).head? = some a := by
      have hrev : b.blocks.reverse.dropWhile P = l'.reverse := by
        rw [hl', List.reverse_reverse]
      rw [hrev, List.head?_reverse, hlast]
    have hPa : P a = false := by
      rcases hdw : b.blocks.reverse.dropWhile P with _ | ⟨z, zs⟩
      · rw [hdw] at hahd
        cases hahd
      · rw [hdw] at hahd
        cases hahd
        exact dropWhile_head_false P b.blocks.reverse hdw
    have ha : a.clock.number ≤ u.lastValidBlock.number := by
      rw [hP] at hPa
      simp only [aboveP, hL, decide_eq_false_iff_not, Nat.not_lt] at hPa
      exact hPa
    exact Nat.le_trans (height_le_getLast_of_sorted hsorted hlast x hx) ha
  constructor
  · exact hsorted
  · intro x hx m hm
    exact inv.aboveM x (hmem x hx) m hm
  · intro x hx
    exact ⟨u.lastValidBlock.number, rfl, hbelow x hx⟩
  · intro m hm
    rcases inv.mBound m hm with h | ⟨le, hle, hmle⟩
    · exact Or.inl h
    · exact Or.inr ⟨le, hle, hmle⟩
  · intro m hm
    refine ⟨u.lastValidBlock.number, rfl, ?_⟩
    rcases inv.mBound m hm with h | ⟨le, hle, hmle⟩
    · omega
    · have := hguard le hle
      omega

/-- Invariant preservation and emission bounds for a successful
`HandleBlockScopedData` on a block strictly above the trace floor: the
emitted batch is strictly increasing, each emitted block lies strictly
above the previous watermark `M`, and the invariant carries over to the
post-state with the updated watermark. -/
theorem bufferInv_data_step {floor : Option Nat} {finalW : Nat}
    {b : BlockDataBuffer} {d : BlockScopedData} {M : Option Nat}
    (inv : BufferInv floor finalW b M)
    (hfloor : ∀ f, floor = some f → f < d.clock.number)
    (hok : (HandleBlockScopedData b d).err = none) :
    (HandleBlockScopedData b d).finalBlocks.Chain' heightLt ∧
    (∀ x ∈ (HandleBlockScopedData b d).finalBlocks, ∀ m, M = some m →
      m < x.clock.number) ∧
    BufferInv (some d.clock.number) (max finalW d.finalBlockHeight)
      (HandleBlockScopedData b d).post
      (nextM (HandleBlockScopedData b d).finalBlocks M) := by
  have hall : ∀ x ∈ b.blocks, x.clock.number < d.clock.number := by
    intro x hx
    obtain ⟨f, hf, hxf⟩ := inv.belowFloor x hx
    exact Nat.lt_of_le_of_lt hxf (hfloor f hf)
  have hMd : ∀ m, M = some m → m < d.clock.number := by
    intro m hm
    obtain ⟨f, hf, hmf⟩ := inv.mFloor m hm
    exact Nat.lt_of_le_of_lt hmf (hfloor f hf)
  have hcont : HandleBlockScopedData b d = handleBlockScopedDataCont b d := by
    rcases hlast : b.blocks.getLast? with _ | hb
    · simp only [HandleBlockScopedData, hlast]
    · simp only [HandleBlockScopedData, hlast]
      rw [if_neg (Nat.not_le_of_lt (hall hb (mem_of_getLast?_eq hlast)))]
  rw [hcont, handleBlockScopedDataCont_eq] at hok ⊢
  by_cases hcond : b.blocks.length = b.capacity ∨
      b.blocks.takeWhile (finalP d.finalBlockHeight) ≠ []
  · rw [if_pos hcond] at hok ⊢
    rcases hlastT : (b.blocks.take (contCount b d)).getLast? with _ | lastB
    · simp only [hlastT] at hok
      cases hok
    · simp only [hlastT] at hok ⊢
      have hsubT : (b.blocks.take (contCount b d)).Sublist b.blocks :=
        List.take_sublist (contCount b d) b.blocks
      have hsortT : (b.blocks.take (contCount b d)).Pairwise heightLt :=
        inv.sorted.sublist hsubT
      have hmemT : ∀ x ∈ b.blocks.take (contCount b d), x ∈ b.blocks :=
        fun x hx => hsubT.subset hx
      have hsubD : (b.blocks.drop (contCount b d)).Sublist b.blocks :=
        List.drop_sublist (contCount b d) b.blocks
      have hmemD : ∀ x ∈ b.blocks.drop (contCount b d), x ∈ b.blocks :=
        fun x hx => hsubD.subset hx
      have happ : (b.blocks.take (contCount b d)).Pairwise heightLt ∧
          (b.blocks.drop (contCount b d)).Pairwise heightLt ∧
          ∀ x ∈ b.blocks.take (contCount b d),
            ∀ y ∈ b.blocks.drop (contCount b d), heightLt x y := by
        have h := inv.sorted
        rw [← List.take_append_drop (contCount b d) b.blocks,
          List.pairwise_append] at h
        exact h
      have hlastMem : lastB ∈ b.blocks.take (contCount b d) :=
        mem_of_getLast?_eq hlastT
      have hlastMax : ∀ x ∈ b.blocks.take (contCount b d),
          x.clock.number ≤ lastB.clock.number :=
        height_le_getLast_of_sorted hsortT hlastT
      rw [finishHandleBlockScopedData] at hok ⊢
      by_cases hfin : d.clock.number ≤ d.finalBlockHeight
      · rw [if_pos hfin] at hok ⊢
        dsimp only at hok ⊢
        have hpall : b.blocks.takeWhile (finalP d.finalBlockHeight) = b.blocks :=
          takeWhile_eq_self_of_forall _ _ (fun x hx => by
            simp only [finalP, decide_eq_true_eq]
            exact Nat.le_trans (Nat.le_of_lt (hall x hx)) hfin)
        have hbne : b.blocks ≠ [] := by
          intro h
          rw [h] at hlastT
          simp at hlastT
        have ht' : contCount b d = b.blocks.length := by
          rw [contCount]
          simp only [hpall]
          rw [if_neg hbne]
        have hdropnil : b.blocks.drop (contCount b d) = [] := by
          rw [ht', List.drop_length]
        have htake : b.blocks.take (contCount b d) = b.blocks := by
          rw [ht', List.take_length]
        have hM' : nextM (b.blocks.take (contCount b d) ++ [d]) M =
            some d.clock.number := by
          simp [nextM, List.getLast?_concat]
        have hchain : (b.blocks.take (contCount b d) ++ [d]).Chain' heightLt := by
          apply List.Pairwise.chain'
        -- Pairwise on the appended singleton: every buffered block is below d
          rw [List.pairwise_append]
          exact ⟨hsortT, List.pairwise_singleton _ _,
            fun x hx y hy => by
              rw [List.mem_singleton] at hy
              rw [hy]
              exact hall x (hmemT x hx)⟩
        refine ⟨hchain, ?_, ?_⟩
        · intro x hx m hm
          rcases List.mem_append.mp hx with hxT | hxd
          · exact inv.aboveM x (hmemT x hxT) m hm
          · rw [List.mem_singleton] at hxd
            rw [hxd]
            exact hMd m hm
        · rw [hM', hdropnil]
          refine ⟨List.Pairwise.nil, ?_, ?_, ?_, ?_⟩
          · intro x hx
            cases hx
          · intro x hx
            cases hx
          · intro m hm
            cases hm
            exact Or.inl (Nat.le_trans hfin (Nat.le_max_right _ _))
          · intro m hm
            cases hm
            exact ⟨d.clock.number, rfl, Nat.le_refl _⟩
      · rw [if_neg hfin] at hok ⊢
        dsimp only at hok ⊢
        have hM' : nextM (b.blocks.take (contCount b d)) M =
            some lastB.clock.number := by
          simp [nextM, hlastT]
        refine ⟨hsortT.chain', ?_, ?_⟩
        · intro x hx m hm
          exact inv.aboveM x (hmemT x hx) m hm
        · rw [hM']
          refine ⟨?_, ?_, ?_, ?_, ?_⟩
          · rw [List.pairwise_append]
            exact ⟨happ.2.1, List.pairwise_singleton _ _,
              fun x hx y hy => by
                rw [List.mem_singleton] at hy
                rw [hy]
                exact hall x (hmemD x hx)⟩
          · intro x hx m hm
            cases hm
            rcases List.mem_append.mp hx with hxD | hxd
            · exact happ.2.2 lastB hlastMem x hxD
            · rw [List.mem_singleton] at hxd
              rw [hxd]
              exact hall lastB (hmemT lastB hlastMem)
          · intro x hx
            refine ⟨d.clock.number, rfl, ?_⟩
            rcases List.mem_append.mp hx with hxD | hxd
            · exact Nat.le_of_lt (hall x (hmemD x hxD))
            · rw [List.mem_singleton] at hxd
              rw [hxd]
          · intro m hm
            cases hm
            exact Or.inr ⟨blockToRef lastB, rfl, Nat.le_refl _⟩
          · intro m hm
            cases hm
            exact ⟨d.clock.number, rfl,
              Nat.le_of_lt (hall lastB (hmemT lastB hlastMem))⟩
  · rw [if_neg hcond] at hok ⊢
    rw [finishHandleBlockScopedData] at hok ⊢
    by_cases hfin : d.clock.number ≤ d.finalBlockHeight
    · rw [if_pos hfin] at hok ⊢
      dsimp only at hok ⊢
      have hpnil : b.blocks.takeWhile (finalP d.finalBlockHeight) = [] := by
        rcases not_or.mp hcond with ⟨_, h2⟩
        exact not_not.mp h2
      have hpall : b.blocks.takeWhile (finalP d.finalBlockHeight) = b.blocks :=
        takeWhile_eq_self_of_forall _ _ (fun x hx => by
          simp only [finalP, decide_eq_true_eq]
          exact Nat.le_trans (Nat.le_of_lt (hall x hx)) hfin)
      have hbnil : b.blocks = [] := by rw [← hpall, hpnil]
      have hM' : nextM ([] ++ [d]) M = some d.clock.number := by
        simp [nextM]
      refine ⟨List.chain'_singleton _, ?_, ?_⟩
      · intro x hx m hm
        rw [List.nil_append, List.mem_singleton] at hx
        rw [hx]
        exact hMd m hm
      · rw [hM']
        refine ⟨?_, ?_, ?_, ?_, ?_⟩
        · rw [hbnil]
          exact List.Pairwise.nil
        · intro x hx
          rw [hbnil] at hx
          cases hx
        · intro x hx
          rw [hbnil] at hx
          cases hx
        · intro m hm
          cases hm
          exact Or.inl (Nat.le_trans hfin (Nat.le_max_right _ _))
        · intro m hm
          cases hm
          exact ⟨d.clock.number, rfl, Nat.le_refl _⟩
    · rw [if_neg hfin] at hok ⊢
      dsimp only at hok ⊢
      have hM' : nextM ([] : List BlockScopedData) M = M := by
        simp [nextM]
      refine ⟨List.chain'_nil, ?_, ?_⟩
      · intro x hx
        cases hx
      · rw [hM']
        refine ⟨?_, ?_, ?_, ?_, ?_⟩
        · rw [List.pairwise_append]
          exact ⟨inv.sorted, List.pairwise_singleton _ _,
            fun x hx y hy => by
              rw [List.mem_singleton] at hy
              rw [hy]
              exact hall x hx⟩
        · intro x hx m hm
          rcases List.mem_append.mp hx with hxB | hxd
          · exact inv.aboveM x hxB m hm
          · rw [List.mem_singleton] at hxd
            rw [hxd]
            exact hMd m hm
        · intro x hx
          refine ⟨d.clock.number, rfl, ?_⟩
          rcases List.mem_append.mp hx with hxB | hxd
          · exact Nat.le_of_lt (hall x hxB)
          · rw [List.mem_singleton] at hxd
            rw [hxd]
        · intro m hm
          rcases inv.mBound m hm with h | ⟨le, hle, hmle⟩
          · exact Or.inl (Nat.le_trans h (Nat.le_max_left _ _))
          · exact Or.inr ⟨le, hle, hmle⟩
        · intro m hm
          exact ⟨d.clock.number, rfl, Nat.le_of_lt (hMd m hm)⟩

/-- Emission monotonicity along a trace: from any state satisfying the
invariant, a successful protocol-legal run emits a strictly increasing
sequence all of whose blocks lie strictly above the incoming watermark. -/
theorem runMsgs_chain :
    ∀ (msgs : List SinkMsg) (floor : Option Nat) (finalW : Nat)
      (b : BlockDataBuffer) (M : Option Nat)
      (em : List BlockScopedData) (b' : BlockDataBuffer),
      BufferInv floor finalW b M →
      legalFromB floor finalW msgs = true →
      runMsgs b msgs = some (em, b') →
      em.Chain' heightLt ∧ ∀ x ∈ em, ∀ m, M = some m → m < x.clock.number := by
  intro msgs
  induction msgs with
  | nil =>
    intro floor finalW b M em b' _ _ hrun
    simp only [runMsgs] at hrun
    cases hrun
    exact ⟨List.chain'_nil, fun x hx => by cases hx⟩
  | cons msg rest ih =>
    intro floor finalW b M em b' inv hlegal hrun
    cases msg with
    | data d =>
      simp only [legalFromB, Bool.and_eq_true] at hlegal
      obtain ⟨hfl, hlegal'⟩ := hlegal
      have hfloor : ∀ f, floor = some f → f < d.clock.number := by
        intro f hf
        rw [hf] at hfl
        simpa using hfl
      simp only [runMsgs] at hrun
      rcases herr : (HandleBlockScopedData b d).err with _ | e
      · simp only [herr] at hrun
        rcases hrec : runMsgs (HandleBlockScopedData b d).post rest with _ | ⟨em', b''⟩
        · rw [hrec] at hrun
          cases hrun
        · rw [hrec] at hrun
          cases hrun
          obtain ⟨hchB, haboveB, inv'⟩ := bufferInv_data_step inv hfloor herr
          obtain ⟨hch', habove'⟩ := ih (some d.clock.number)
            (max finalW d.finalBlockHeight) (HandleBlockScopedData b d).post
            (nextM (HandleBlockScopedData b d).finalBlocks M) em' _
            inv' hlegal' hrec
          constructor
          · apply List.Chain'.append hchB hch'
            intro x hx y hy
            have hxl : (HandleBlockScopedData b d).finalBlocks.getLast? = some x := hx
            have hM' : nextM (HandleBlockScopedData b d).finalBlocks M =
                some x.clock.number := by
              simp [nextM, hxl]
            exact habove' y (List.mem_of_mem_head? hy) x.clock.number hM'
          · intro z hz m hm
            rcases List.mem_append.mp hz with hzB | hz'
            · exact haboveB z hzB m hm
            · rcases hfb : (HandleBlockScopedData b d).finalBlocks.getLast?
                with _ | lastE
              · have hM' : nextM (HandleBlockScopedData b d).finalBlocks M = M := by
                  simp [nextM, hfb]
                exact habove' z hz' m (hM'.trans hm)
              · have hM' : nextM (HandleBlockScopedData b d).finalBlocks M =
                    some lastE.clock.number := by
                  simp [nextM, hfb]
                have h1 : m < lastE.clock.number :=
                  haboveB lastE (mem_of_getLast?_eq hfb) m hm
                have h2 : lastE.clock.number < z.clock.number :=
                  habove' z hz' lastE.clock.number hM'
                omega
      · simp only [herr] at hrun
        cases hrun
    | undo u =>
      simp only [legalFromB, Bool.and_eq_true, decide_eq_true_eq] at hlegal
      obtain ⟨hW, hlegal'⟩ := hlegal
      simp only [runMsgs] at hrun
      rcases herr : (HandleBlockUndoSignal b u).err with _ | e
      · simp only [herr] at hrun
        exact ih (some u.lastValidBlock.number) finalW
          (HandleBlockUndoSignal b u).post M em b'
          (bufferInv_undo_step inv hW herr) hlegal' hrun
      · simp only [herr] at hrun
        cases hrun

/-- C1 counterexample — the claim fails as stated: on a fresh buffer of
capacity 1, the two calls `HandleBlockScopedData` with the final block
#5 (a) and then the final block #3 (b) both succeed (the ordering check is
skipped on an empty buffer and pass-through final blocks never update
`last_emitted_block`), yet the concatenated emissions 5, 3 are not strictly
increasing in height. -/
theorem monotone_emission_counterexample :
    runMsgs (newBlockDataBuffer 1)
        [SinkMsg.data ⟨⟨5, "a"⟩, 5⟩, SinkMsg.data ⟨⟨3, "b"⟩, 3⟩] =
      some ([⟨⟨5, "a"⟩, 5⟩, ⟨⟨3, "b"⟩, 3⟩], newBlockDataBuffer 1) ∧
    ¬ List.Chain' heightLt [(⟨⟨5, "a"⟩, 5⟩ : BlockScopedData), ⟨⟨3, "b"⟩, 3⟩] := by
  constructor
  · decide
  · intro h
    exact absurd (List.chain'_cons.mp h).1 (by decide)

/-- C1 (amended) — Monotone emission along protocol-legal traces: for every
sequence of `HandleBlockScopedData` and `HandleBlockUndoSignal` calls on one
fresh block buffer in which every call succeeds and the inputs respect the
protocol the client assumes of the server (each data block strictly above
the previous data height or last undo target, and no undo below the
greatest declared final height), the concatenation of the emitted-block
lists in call order is strictly increasing in clock height. -/
theorem monotone_emission_of_legal (n : Nat) (msgs : List SinkMsg)
    (em : List BlockScopedData) (b' : BlockDataBuffer)
    (hlegal : legalFromB none 0 msgs = true)
    (hrun : runMsgs (newBlockDataBuffer n) msgs = some (em, b')) :
    em.Chain' heightLt := by
  have hinv : BufferInv none 0 (newBlockDataBuffer n) none := by
    refine ⟨List.Pairwise.nil, ?_, ?_, ?_, ?_⟩
    · intro x hx
      cases hx
    · intro x hx
      cases hx
    · intro m hm
      cases hm
    · intro m hm
      cases hm
  exact (runMsgs_chain msgs none 0 (newBlockDataBuffer n) none em b'
    hinv hlegal hrun).1

/-- Witness for C1 (amended): scenario S1 of the spec — four strictly
increasing non-final blocks on a capacity-3 buffer form a legal trace whose
single emission (block #1) is trivially strictly increasing. -/
theorem monotone_emission_of_legal_witness :
    legalFromB none 0
        [SinkMsg.data (blk 1 "a" 0), SinkMsg.data (blk 2 "a" 0),
         SinkMsg.data (blk 3 "a" 0), SinkMsg.data (blk 4 "a" 0)] = true ∧
    List.Chain' heightLt [blk 1 "a" 0] :=
  ⟨by decide,
   monotone_emission_of_legal 3
     [SinkMsg.data (blk 1 "a" 0), SinkMsg.data (blk 2 "a" 0),
      SinkMsg.data (blk 3 "a" 0), SinkMsg.data (blk 4 "a" 0)]
     [blk 1 "a" 0]
     ⟨3, [blk 2 "a" 0, blk 3 "a" 0, blk 4 "a" 0], some ⟨"a", 1⟩⟩
     (by decide) (by decide)⟩

end SubstreamsSink
